import Mathlib

/-!
Shallow embedding of the ETL_Pipeline incremental ingestion scripts
(`src/openfec_schedule_a_raw.py`, `src/openfec_committees_raw.py`).

The scripts ingest paginated records from the OpenFEC API into a warehouse:
they resolve a watermark from a run log, walk a keyset-paginated endpoint,
persist rows with chunked commits, compute a new watermark from the fetched
rows' `load_date` fields, and log the run outcome (`SUCCESS` / `FAILED`).

External effects (HTTP, Snowflake connections, the wall clock) are passed in
explicitly: the remote API becomes a function from call index to response,
the database becomes explicit state (committed rows / pending transaction),
`datetime.now(...)` becomes a `now` parameter, and an injectable fault
(`failAt`) models an exception raised by a given `cur.execute` call.
-/

namespace ETL

/-- Python `datetime.datetime` (naive, as used by the scripts: every value is
built with `.replace(tzinfo=None)` or parsed from a timezone-free string). -/
structure PyDateTime where
  year : Nat
  month : Nat
  day : Nat
  hour : Nat
  minute : Nat
  second : Nat
deriving DecidableEq, Repr

/-- Mixed-radix key for a datetime.  On values with the ranges Python's
`datetime` constructor enforces (`1 <= month <= 12`, `day <= 31`,
`hour <= 23`, `minute, second <= 59`) the key order is exactly Python's
lexicographic `datetime` comparison. -/
def toKey (t : PyDateTime) : Nat :=
  ((((t.year * 13 + t.month) * 32 + t.day) * 24 + t.hour) * 60 + t.minute) * 60 + t.second

/-- Python `a < b` on datetimes. -/
def dtLt (a b : PyDateTime) : Bool := toKey a < toKey b

/-- Python `a <= b` on datetimes. -/
def dtLe (a b : PyDateTime) : Bool := toKey a ≤ toKey b

/-- One step of Python's `max` over an iterable: keep the current value unless
the next element is strictly greater. -/
def pyMax2 (a b : PyDateTime) : PyDateTime := if toKey a < toKey b then b else a

/-- Python `max(x :: xs)`. -/
def pyMaxList (x : PyDateTime) (xs : List PyDateTime) : PyDateTime :=
  xs.foldl pyMax2 x

/-- The sentinel `'1900-01-01'::TIMESTAMP_NTZ` used by `get_last_watermark`. -/
def epoch1900 : PyDateTime := ⟨1900, 1, 1, 0, 0, 0⟩

/-- `str(watermark).startswith("1900-01-01")` (line 181): `str` of a naive
datetime prints `YYYY-MM-DD HH:MM:SS`, so the check holds exactly when the
calendar day is 1900-01-01, whatever the time component. -/
def startsWithEpochDay (t : PyDateTime) : Bool :=
  t.year == 1900 && t.month == 1 && t.day == 1

/-- Leap year (Gregorian), as Python's `calendar.isleap` / `datetime`. -/
def isLeap (y : Nat) : Bool := (y % 4 == 0 && y % 100 != 0) || y % 400 == 0

/-- Days in a month, matching Python `datetime`'s validation. -/
def daysInMonth (y m : Nat) : Nat :=
  if m == 2 then (if isLeap y then 29 else 28)
  else if m == 4 || m == 6 || m == 9 || m == 11 then 30
  else 31

/-- Day count of a civil date from the era base 0000-03-01
(Howard Hinnant's `days_from_civil`, shifted to stay in `Nat`).
Strictly monotone in the date for `year >= 1`. -/
def daysFromCivil (y m d : Nat) : Nat :=
  let y' := if m ≤ 2 then y - 1 else y
  let era := y' / 400
  let yoe := y' % 400
  let mp := (m + 9) % 12
  let doy := (153 * mp + 2) / 5 + (d - 1)
  let doe := yoe * 365 + yoe / 4 - yoe / 100 + doy
  era * 146097 + doe

/-- Inverse of `daysFromCivil` (Hinnant's `civil_from_days`). -/
def civilFromDays (z : Nat) : Nat × Nat × Nat :=
  let era := z / 146097
  let doe := z % 146097
  let yoe := (doe - doe / 1460 + doe / 36524 - doe / 146096) / 365
  let y' := yoe + era * 400
  let doy := doe - (365 * yoe + yoe / 4 - yoe / 100)
  let mp := (5 * doy + 2) / 153
  let d := doy - (153 * mp + 2) / 5 + 1
  let m := if mp < 10 then mp + 3 else mp - 9
  (if m ≤ 2 then y' + 1 else y', m, d)

/-- `watermark - timedelta(days=30)` (line 182): calendar arithmetic on the
day, time-of-day unchanged. -/
def sub30days (t : PyDateTime) : PyDateTime :=
  let c := civilFromDays (daysFromCivil t.year t.month t.day - 30)
  ⟨c.1, c.2.1, c.2.2, t.hour, t.minute, t.second⟩

/-- Zero-padded 2-digit decimal. -/
def pad2 (n : Nat) : String := if n < 10 then "0" ++ toString n else toString n

/-- Zero-padded 4-digit decimal. -/
def pad4 (n : Nat) : String :=
  if n < 10 then "000" ++ toString n
  else if n < 100 then "00" ++ toString n
  else if n < 1000 then "0" ++ toString n
  else toString n

/-- `watermark.strftime("%Y-%m-%d")` (line 91): the date part only — the
time-of-day of the watermark is dropped from the `min_load_date` filter. -/
def fmtYMD (t : PyDateTime) : String :=
  pad4 t.year ++ "-" ++ pad2 t.month ++ "-" ++ pad2 t.day

/-- Decimal digit of a character, `none` if not a digit. -/
def digitVal (c : Char) : Option Nat :=
  if c.isDigit then some (c.toNat - 48) else none

/-- `datetime.fromisoformat` on the formats the source documents
(`openfec_schedule_a_raw.py` line 163: `YYYY-MM-DDTHH:MM:SS`, no timezone),
plus the bare date `YYYY-MM-DD`; any other string fails to parse, matching
the `except: pass` that silently drops it.  Field ranges are validated the
way Python's `datetime` constructor does. -/
def fromisoformat (s : String) : Option PyDateTime :=
  match s.data with
  | [y1, y2, y3, y4, '-', m1, m2, '-', d1, d2] => do
    let y ← do
      let a ← digitVal y1; let b ← digitVal y2; let c ← digitVal y3; let d ← digitVal y4
      pure (((a * 10 + b) * 10 + c) * 10 + d)
    let mo ← do let a ← digitVal m1; let b ← digitVal m2; pure (a * 10 + b)
    let dy ← do let a ← digitVal d1; let b ← digitVal d2; pure (a * 10 + b)
    if 1 ≤ y ∧ 1 ≤ mo ∧ mo ≤ 12 ∧ 1 ≤ dy ∧ dy ≤ daysInMonth y mo then
      some ⟨y, mo, dy, 0, 0, 0⟩
    else none
  | [y1, y2, y3, y4, '-', m1, m2, '-', d1, d2, _sep, h1, h2, ':', n1, n2, ':', s1, s2] => do
    let y ← do
      let a ← digitVal y1; let b ← digitVal y2; let c ← digitVal y3; let d ← digitVal y4
      pure (((a * 10 + b) * 10 + c) * 10 + d)
    let mo ← do let a ← digitVal m1; let b ← digitVal m2; pure (a * 10 + b)
    let dy ← do let a ← digitVal d1; let b ← digitVal d2; pure (a * 10 + b)
    let h ← do let a ← digitVal h1; let b ← digitVal h2; pure (a * 10 + b)
    let mi ← do let a ← digitVal n1; let b ← digitVal n2; pure (a * 10 + b)
    let se ← do let a ← digitVal s1; let b ← digitVal s2; pure (a * 10 + b)
    if 1 ≤ y ∧ 1 ≤ mo ∧ mo ≤ 12 ∧ 1 ≤ dy ∧ dy ≤ daysInMonth y mo
        ∧ h ≤ 23 ∧ mi ≤ 59 ∧ se ≤ 59 then
      some ⟨y, mo, dy, h, mi, se⟩
    else none
  | _ => none

/-- One record returned by the API.  The scripts read only its `load_date`
key (`none` models a missing key or JSON `null`); `payload` stands for the
rest of the JSON object, which is landed verbatim
(`PARSE_JSON(json.dumps(row))` round-trips it). -/
structure Record where
  load_date : Option String
  payload : String
deriving DecidableEq, Repr

/-- `[r.get("load_date") for r in rows if r.get("load_date")]` (line 155):
keep only truthy values — present and non-empty. -/
def loadDates (rows : List Record) : List String :=
  rows.filterMap fun r =>
    match r.load_date with
    | some s => if s = "" then none else some s
    | none => none

/-- `compute_new_watermark(rows, fallback)` (lines 149-169): max of the
parseable `load_date` values, `fallback` when there are none (no values at
all, or every value failed to parse). -/
def compute_new_watermark (rows : List Record) (fallback : PyDateTime) : PyDateTime :=
  let load_dates := loadDates rows
  if load_dates.isEmpty then fallback
  else
    let parsed := load_dates.filterMap fromisoformat
    match parsed with
    | [] => fallback
    | p :: ps => pyMaxList p ps

/-- Module constants (lines 13 and 12). -/
def SOURCE : String := "openfec"

/-- The Schedule A endpoint path. -/
def ENDPOINT : String := "/schedules/schedule_a/"

/-- One row of `CONTROL.ingest_runs`. -/
structure RunLogRow where
  source : String
  endpoint : String
  last_indexed_date : PyDateTime
  last_run_ts : PyDateTime
  status : String
  rows_loaded : Nat
  notes : String
deriving DecidableEq, Repr

/-- The rows the `WHERE` clause of `get_last_watermark` keeps. -/
def matchingRuns (store : List RunLogRow) : List RunLogRow :=
  store.filter fun r => r.source == SOURCE && r.endpoint == ENDPOINT && r.status == "SUCCESS"

/-- `get_last_watermark()` (lines 28-47):
`COALESCE(MAX(last_indexed_date), '1900-01-01') ... WHERE source = %s AND
endpoint = %s AND status = 'SUCCESS'` over the store's rows. -/
def get_last_watermark (store : List RunLogRow) : PyDateTime :=
  match (matchingRuns store).map (·.last_indexed_date) with
  | [] => epoch1900
  | v :: vs => pyMaxList v vs

/-- `log_run(status, watermark, rows_loaded, notes)` (lines 50-73): the single
row it appends to `CONTROL.ingest_runs`; `now` is the `datetime.now(...)`
taken inside the function for `last_run_ts`. -/
def log_run (now : PyDateTime) (status : String) (watermark : PyDateTime)
    (rows_loaded : Nat) (notes : String) : RunLogRow :=
  ⟨SOURCE, ENDPOINT, watermark, now, status, rows_loaded, notes⟩

/-- Python string slicing `s[:n]`. -/
def pyTrunc (s : String) (n : Nat) : String := ⟨s.data.take n⟩

/-- A request parameter set / a JSON object, as an insertion-ordered
association list (Python dicts preserve insertion order; keys of a parsed
JSON object are distinct). -/
abbrev Dict := List (String × String)

/-- `d[k]` lookup: value of the first entry whose key is `k`. -/
def lookupD (d : Dict) (k : String) : Option String :=
  match d with
  | [] => none
  | (k', v) :: rest => if k' = k then some v else lookupD rest k

/-- `d.update(u)` (line 117): overwrite the value of every key of `d` that
`u` names, keep the others, and append `u`'s new keys in order. -/
def dictUpdate (d u : Dict) : Dict :=
  (d.map fun p => match lookupD u p.1 with
    | some v => (p.1, v)
    | none => p)
  ++ u.filter fun p => (lookupD d p.1).isNone

/-- The keys a dict names. -/
def keysOf (d : Dict) : List String := d.map (·.1)

/-- The `pagination` object of a response (`last_indexes` may be missing or
`null`). -/
structure Pagination where
  last_indexes : Option Dict
deriving DecidableEq, Repr

/-- One parsed page body: `results` (missing key defaults to `[]`, line 105)
and an optional `pagination` object. -/
structure PageData where
  results : List Record
  pagination : Option Pagination
deriving DecidableEq, Repr

/-- `(data.get("pagination") or \x7b\x7d).get("last_indexes") or \x7b\x7d`
(line 112). -/
def lastIndexesOf (d : PageData) : Dict :=
  match d.pagination with
  | none => []
  | some p => p.last_indexes.getD []

/-- Outcome of `fetch_schedule_a_keyset`: the accumulated rows (or the
exception `requests.get` / `raise_for_status` propagated) and how many
requests were issued. -/
structure FetchResult where
  outcome : Except String (List Record)
  calls : Nat
deriving Repr

/-- The `for batch_num in range(1, max_batches + 1)` loop of
`fetch_schedule_a_keyset` (lines 95-119).  `api i` is the response to the
`i`-th request (0-based), `.error` a transport/HTTP failure; `fuel` is the
number of loop iterations left, `idx` the next request's index, `params`
the current parameter set, `rows` the accumulator. -/
def fetchAux (api : Nat → Except String PageData) :
    Nat → Nat → Dict → List Record → FetchResult
  | 0, idx, _params, rows => ⟨.ok rows, idx⟩
  | fuel + 1, idx, params, rows =>
    match api idx with
    | .error e => ⟨.error e, idx + 1⟩
    | .ok d =>
      if d.results.isEmpty then ⟨.ok rows, idx + 1⟩
      else
        let rows' := rows ++ d.results
        let li := lastIndexesOf d
        if li.isEmpty then ⟨.ok rows', idx + 1⟩
        else fetchAux api fuel (idx + 1) (dictUpdate params li) rows'

/-- `fetch_schedule_a_keyset(min_load_date, per_page, max_batches)`
(lines 76-119).  `current_year` stands for `datetime.now().year` (line 87).
The starting parameter set has no `page` key — pagination is keyset-only. -/
def fetch_schedule_a_keyset (api : Nat → Except String PageData)
    (min_load_date : PyDateTime) (per_page : Nat := 100) (max_batches : Nat := 5)
    (current_year : Nat := 2025) : FetchResult :=
  let params : Dict :=
    [("per_page", toString per_page),
     ("sort", "contribution_receipt_date"),
     ("min_load_date", fmtYMD min_load_date),
     ("two_year_transaction_period", toString current_year)]
  fetchAux api max_batches 0 params []

/-- `results` of the `i`-th response when it is a page, `[]` otherwise. -/
def okResults (api : Nat → Except String PageData) (i : Nat) : List Record :=
  match api i with
  | .ok d => d.results
  | .error _ => []

/-- Concatenation, in fetch order, of the results of pages
`start, start+1, ..., start+n-1`. -/
def pagesConcat (api : Nat → Except String PageData) (start n : Nat) : List Record :=
  match n with
  | 0 => []
  | n + 1 => okResults api start ++ pagesConcat api (start + 1) n

/-- One row of `RAW.raw_schedule_a` (line 132). -/
structure RawScheduleARow where
  ingest_ts : PyDateTime
  source : String
  endpoint : String
  payload : Record
deriving DecidableEq, Repr

/-- One row of `RAW.raw_committees` (`openfec_committees_raw.py` line 53). -/
structure RawCommitteeRow where
  ingest_ts : PyDateTime
  source : String
  payload : Record
deriving DecidableEq, Repr

/-- Outcome of a raw-writer call: the rows durably committed, the number of
`conn.commit()` calls, and the return value (`.ok inserted`) or the
exception propagated (`.error`). -/
structure WriteOut (β : Type) where
  committed : List β
  commits : Nat
  result : Except String Nat
deriving Repr

/-- Does the injected fault fire on the `i`-th `cur.execute`? -/
def failsHere (failAt : Option (Nat × String)) (i : Nat) : Option String :=
  match failAt with
  | some (j, msg) => if j = i then some msg else none
  | none => none

/-- The `for i, row in enumerate(rows, start=1)` insert loop shared by
`insert_raw_schedule_a` (lines 135-143) and `insert_raw`
(`openfec_committees_raw.py` lines 57-66): execute an insert per record,
`conn.commit()` whenever `i % commit_every == 0`, and a final commit after
the loop.  On a raised `cur.execute` the `finally` block closes the
connection, discarding the uncommitted transaction (`pending`). -/
def chunkedInsertLoop {α β : Type} (mk : α → β) (K : Nat) (failAt : Option (Nat × String)) :
    List α → Nat → List β → List β → Nat → Nat → WriteOut β
  | [], _i, committed, pending, commits, inserted =>
    ⟨committed ++ pending, commits + 1, .ok inserted⟩
  | r :: rest, i, committed, pending, commits, inserted =>
    match failsHere failAt i with
    | some msg => ⟨committed, commits, .error msg⟩
    | none =>
      let pending' := pending ++ [mk r]
      if i % K == 0 then
        chunkedInsertLoop mk K failAt rest (i + 1) (committed ++ pending') [] (commits + 1) (inserted + 1)
      else
        chunkedInsertLoop mk K failAt rest (i + 1) committed pending' commits (inserted + 1)

/-- `insert_raw_schedule_a(rows, commit_every)` (lines 122-146).  `ingest_ts`
is the single `datetime.now(...)` taken before the loop (line 127); `failAt`
injects an exception on a chosen `cur.execute`.  An empty input returns 0
before any connection is opened. -/
def insert_raw_schedule_a (ingest_ts : PyDateTime) (rows : List Record)
    (commit_every : Nat := 500) (failAt : Option (Nat × String) := none) :
    WriteOut RawScheduleARow :=
  if rows.isEmpty then ⟨[], 0, .ok 0⟩
  else chunkedInsertLoop (fun r => ⟨ingest_ts, SOURCE, ENDPOINT, r⟩)
    commit_every failAt rows 1 [] [] 0 0

/-- `insert_raw(rows, commit_every)` of `openfec_committees_raw.py`
(lines 40-69): same chunked loop, landing `(ingest_ts, source, payload)`. -/
def insert_raw (ingest_ts : PyDateTime) (rows : List Record)
    (commit_every : Nat := 500) (failAt : Option (Nat × String) := none) :
    WriteOut RawCommitteeRow :=
  if rows.isEmpty then ⟨[], 0, .ok 0⟩
  else chunkedInsertLoop (fun r => ⟨ingest_ts, "openfec", r⟩)
    commit_every failAt rows 1 [] [] 0 0

/-- Watermark resolution of `__main__` (lines 177-183): read the store's
watermark and, when it still starts with the 1900-01-01 sentinel day,
substitute the 30-day lookback from `now`. -/
def resolveWatermark (store : List RunLogRow) (now : PyDateTime) : PyDateTime :=
  let watermark := get_last_watermark store
  if startsWithEpochDay watermark then sub30days now else watermark

/-- What one `__main__` run observably does: the `ingest_runs` rows it
appends, the exception it re-raises (if any), and the raw rows durably
persisted. -/
structure RunResult where
  logs : List RunLogRow
  raised : Option String
  persisted : List RawScheduleARow
deriving Repr

/-- The `__main__` block of `openfec_schedule_a_raw.py` (lines 172-201):
resolve the watermark, fetch with keyset pagination, insert, compute the new
watermark, and log `SUCCESS`; on any exception in the `try` block, log
`FAILED` with the pre-run watermark, 0 rows and the message truncated to 500
characters, then re-raise.  `now` stands for the wall clock, `api` for the
remote endpoint, `writeFail` for an injected insert-phase exception. -/
def runOnce (store : List RunLogRow) (now : PyDateTime)
    (api : Nat → Except String PageData)
    (writeFail : Option (Nat × String) := none) : RunResult :=
  let wm := resolveWatermark store now
  match (fetch_schedule_a_keyset api wm 100 5 now.year).outcome with
  | .error e => ⟨[log_run now "FAILED" wm 0 (pyTrunc e 500)], some e, []⟩
  | .ok rows =>
    let w := insert_raw_schedule_a now rows 500 writeFail
    match w.result with
    | .error e => ⟨[log_run now "FAILED" wm 0 (pyTrunc e 500)], some e, w.committed⟩
    | .ok inserted =>
      let new_watermark := compute_new_watermark rows wm
      ⟨[log_run now "SUCCESS" new_watermark inserted "Schedule A keyset load (max_batches=5)"],
       none, w.committed⟩

/-! ### Concrete fixtures used by witnesses and counterexamples -/

/-- A store holding one prior SUCCESS run with watermark 2023-01-02T10:00:00. -/
def store0 : List RunLogRow :=
  [⟨"openfec", "/schedules/schedule_a/", ⟨2023, 1, 2, 10, 0, 0⟩, ⟨2023, 1, 2, 11, 0, 0⟩,
    "SUCCESS", 5, ""⟩]

/-- A record whose `load_date` lies earlier than `store0`'s watermark but on
the same calendar day, so it satisfies the date-truncated `min_load_date`
filter the script sends. -/
def rec0 : Record := ⟨some "2023-01-02T05:00:00", "r0"⟩

/-- A record with a later `load_date`. -/
def rec1 : Record := ⟨some "2023-01-05T00:00:00", "r1"⟩

/-- An API serving one page holding `rec0` and no pagination object. -/
def api0 : Nat → Except String PageData := fun i =>
  if i = 0 then .ok ⟨[rec0], none⟩ else .ok ⟨[], none⟩

/-- An API serving `rec0` and `rec1` on its first page. -/
def api3 : Nat → Except String PageData := fun i =>
  if i = 0 then .ok ⟨[rec0, rec1], none⟩ else .ok ⟨[], none⟩

/-- An API whose every request fails. -/
def apiErr : Nat → Except String PageData := fun _ => .error "HTTP 500"

/-- An API answering every request with an empty page that still carries a
cursor. -/
def apiEmpty0 : Nat → Except String PageData := fun _ =>
  .ok ⟨[], some ⟨some [("last_index", "7")]⟩⟩

/-- An API answering every request with one record and a fresh cursor. -/
def apiFull : Nat → Except String PageData := fun i =>
  .ok ⟨[⟨none, toString i⟩], some ⟨some [("last_index", toString i)]⟩⟩

/-- A fixed wall-clock instant. -/
def now0 : PyDateTime := ⟨2024, 6, 1, 0, 0, 0⟩

/-- 1250 identical records, for the chunked-commit scenario. -/
def rows1250 : List Record := List.replicate 1250 ⟨none, "r"⟩

/-- A FAILED run row carrying a huge watermark. -/
def failedRow0 : RunLogRow :=
  ⟨"openfec", "/schedules/schedule_a/", ⟨2050, 1, 1, 0, 0, 0⟩, ⟨2050, 1, 1, 0, 0, 0⟩,
   "FAILED", 0, "late failure"⟩

/-! ### Ordering helpers for `pyMax2` folds -/

lemma toKey_pyMax2_left (a b : PyDateTime) : toKey a ≤ toKey (pyMax2 a b) := by
  unfold pyMax2; split <;> omega

lemma toKey_pyMax2_right (a b : PyDateTime) : toKey b ≤ toKey (pyMax2 a b) := by
  unfold pyMax2; split <;> omega

lemma toKey_le_foldl (l : List PyDateTime) : ∀ a, toKey a ≤ toKey (l.foldl pyMax2 a) := by
  induction l with
  | nil => intro a; simp
  | cons x xs ih =>
    intro a
    simpa using le_trans (toKey_pyMax2_left a x) (ih (pyMax2 a x))

lemma mem_toKey_le_foldl (l : List PyDateTime) : ∀ (a x : PyDateTime), x ∈ l →
    toKey x ≤ toKey (l.foldl pyMax2 a) := by
  induction l with
  | nil => intro a x hx; cases hx
  | cons y ys ih =>
    intro a x hx
    rcases List.mem_cons.1 hx with h | h
    · subst h
      simpa using le_trans (toKey_pyMax2_right a x) (toKey_le_foldl ys (pyMax2 a x))
    · simpa using ih (pyMax2 a y) x h

lemma foldl_pyMax2_mem (l : List PyDateTime) : ∀ a, l.foldl pyMax2 a = a ∨ l.foldl pyMax2 a ∈ l := by
  induction l with
  | nil => intro a; left; rfl
  | cons x xs ih =>
    intro a
    have hstep : (x :: xs).foldl pyMax2 a = xs.foldl pyMax2 (pyMax2 a x) := by simp
    rcases ih (pyMax2 a x) with h | h
    · by_cases hc : toKey a < toKey x
      · right
        rw [hstep, h]
        simp [pyMax2, hc]
      · left
        rw [hstep, h]
        simp [pyMax2, hc]
    · right
      rw [hstep]
      exact List.mem_cons_of_mem x h

/-! ### Watermark-store helpers -/

lemma mem_matchingRuns (store : List RunLogRow) (r : RunLogRow) :
    r ∈ matchingRuns store ↔
      r ∈ store ∧ r.source = SOURCE ∧ r.endpoint = ENDPOINT ∧ r.status = "SUCCESS" := by
  simp [matchingRuns, List.mem_filter, and_assoc]

lemma glw_upper (store : List RunLogRow) (r : RunLogRow) (hr : r ∈ store)
    (hs : r.source = SOURCE) (he : r.endpoint = ENDPOINT) (hst : r.status = "SUCCESS") :
    toKey r.last_indexed_date ≤ toKey (get_last_watermark store) := by
  have hm : r ∈ matchingRuns store := (mem_matchingRuns store r).2 ⟨hr, hs, he, hst⟩
  have hv : r.last_indexed_date ∈ (matchingRuns store).map (·.last_indexed_date) :=
    List.mem_map_of_mem _ hm
  cases hml : (matchingRuns store).map (·.last_indexed_date) with
  | nil => rw [hml] at hv; cases hv
  | cons v vs =>
    rw [hml] at hv
    simp only [get_last_watermark, hml, pyMaxList]
    rcases List.mem_cons.1 hv with h | h
    · rw [h]; exact toKey_le_foldl vs v
    · exact mem_toKey_le_foldl vs v _ h

lemma glw_nil (store : List RunLogRow) (h : matchingRuns store = []) :
    get_last_watermark store = epoch1900 := by
  simp [get_last_watermark, h]

lemma glw_mem (store : List RunLogRow) (h : matchingRuns store ≠ []) :
    get_last_watermark store ∈ (matchingRuns store).map (·.last_indexed_date) := by
  cases hml : (matchingRuns store).map (·.last_indexed_date) with
  | nil =>
    exact absurd (List.map_eq_nil_iff.1 hml) h
  | cons v vs =>
    simp only [get_last_watermark, hml, pyMaxList]
    rcases foldl_pyMax2_mem vs v with hh | hh
    · rw [hh]; exact List.mem_cons_self v vs
    · exact List.mem_cons_of_mem v hh

lemma glw_cons_skip (store : List RunLogRow) (r : RunLogRow) (h : r.status ≠ "SUCCESS") :
    get_last_watermark (r :: store) = get_last_watermark store := by
  have hb : (r.source == SOURCE && r.endpoint == ENDPOINT && r.status == "SUCCESS") = false := by
    have : (r.status == "SUCCESS") = false := beq_eq_false_iff_ne.2 h
    simp [this]
  have : matchingRuns (r :: store) = matchingRuns store := by
    simp [matchingRuns, List.filter_cons, hb]
  rw [get_last_watermark, get_last_watermark, this]

/-! ### Dictionary (parameter-set) helpers -/

lemma lookupD_append_some (d1 d2 : Dict) (k : String) (v : String)
    (h : lookupD d1 k = some v) : lookupD (d1 ++ d2) k = some v := by
  induction d1 with
  | nil => simp [lookupD] at h
  | cons p rest ih =>
    by_cases hk : p.1 = k
    · simp [lookupD, hk] at h ⊢
      exact h
    · simp [lookupD, hk] at h ⊢
      exact ih h

lemma lookupD_append_none (d1 d2 : Dict) (k : String)
    (h : lookupD d1 k = none) : lookupD (d1 ++ d2) k = lookupD d2 k := by
  induction d1 with
  | nil => rfl
  | cons p rest ih =>
    by_cases hk : p.1 = k
    · simp [lookupD, hk] at h
    · simp [lookupD, hk] at h ⊢
      exact ih h

lemma lookupD_isSome_of_mem_keys (u : Dict) (k : String) (h : k ∈ keysOf u) :
    ∃ v, lookupD u k = some v := by
  induction u with
  | nil => simp [keysOf] at h
  | cons p rest ih =>
    by_cases hk : p.1 = k
    · exact ⟨p.2, by simp [lookupD, hk]⟩
    · have : k ∈ keysOf rest := by
        rcases List.mem_cons.1 h with hh | hh
        · exact absurd hh.symm hk
        · exact hh
      obtain ⟨v, hv⟩ := ih this
      exact ⟨v, by simp [lookupD, hk, hv]⟩

lemma lookupD_none_of_not_mem_keys (u : Dict) (k : String) (h : k ∉ keysOf u) :
    lookupD u k = none := by
  induction u with
  | nil => rfl
  | cons p rest ih =>
    have hk : p.1 ≠ k := fun he => h (he ▸ List.mem_cons_self _ _)
    have : k ∉ keysOf rest := fun hm => h (List.mem_cons_of_mem _ hm)
    simp [lookupD, hk, ih this]

lemma lookupD_map_overwrite (u d : Dict) (k : String) :
    lookupD (d.map fun p => match lookupD u p.1 with
      | some v => (p.1, v)
      | none => p) k =
      match lookupD d k with
      | some v => match lookupD u k with | some w => some w | none => some v
      | none => none := by
  induction d with
  | nil => rfl
  | cons p rest ih =>
    by_cases hk : p.1 = k
    · subst hk
      cases hu : lookupD u p.1 <;> simp [lookupD, hu]
    · cases hu : lookupD u p.1 <;> simp [lookupD, hu, hk, ih]

lemma lookupD_filter_keep (d u : Dict) (k : String) (h : (lookupD d k).isNone) :
    lookupD (u.filter fun p => (lookupD d p.1).isNone) k = lookupD u k := by
  induction u with
  | nil => rfl
  | cons p rest ih =>
    by_cases hk : p.1 = k
    · subst hk
      simp [List.filter_cons, h, lookupD]
    · cases hp : (lookupD d p.1).isNone
      · simp [List.filter_cons, hp, lookupD, hk, ih]
      · simp [List.filter_cons, hp, lookupD, hk, ih]

lemma lookupD_filter_none (u : Dict) (q : String × String → Bool) (k : String)
    (h : lookupD u k = none) : lookupD (u.filter q) k = none := by
  induction u with
  | nil => rfl
  | cons p rest ih =>
    by_cases hk : p.1 = k
    · simp [lookupD, hk] at h
    · have h' : lookupD rest k = none := by simpa [lookupD, hk] using h
      cases hq : q p
      · simp [List.filter_cons, hq, ih h']
      · simp [List.filter_cons, hq, lookupD, hk, ih h']

lemma lookupD_dictUpdate_mem (d u : Dict) (k : String) (h : k ∈ keysOf u) :
    lookupD (dictUpdate d u) k = lookupD u k := by
  obtain ⟨w, hw⟩ := lookupD_isSome_of_mem_keys u k h
  unfold dictUpdate
  cases hd : lookupD d k with
  | some v =>
    have hm : lookupD (d.map fun p => match lookupD u p.1 with
        | some v => (p.1, v)
        | none => p) k = some w := by
      rw [lookupD_map_overwrite, hd, hw]
    rw [lookupD_append_some _ _ _ _ hm, hw]
  | none =>
    have hm : lookupD (d.map fun p => match lookupD u p.1 with
        | some v => (p.1, v)
        | none => p) k = none := by
      rw [lookupD_map_overwrite, hd]
    rw [lookupD_append_none _ _ _ hm, lookupD_filter_keep]
    rw [hd]; rfl

lemma lookupD_dictUpdate_not_mem (d u : Dict) (k : String) (h : k ∉ keysOf u) :
    lookupD (dictUpdate d u) k = lookupD d k := by
  have hu : lookupD u k = none := lookupD_none_of_not_mem_keys u k h
  unfold dictUpdate
  cases hd : lookupD d k with
  | some v =>
    have hm : lookupD (d.map fun p => match lookupD u p.1 with
        | some v => (p.1, v)
        | none => p) k = some v := by
      rw [lookupD_map_overwrite, hd, hu]
    rw [lookupD_append_some _ _ _ _ hm]
  | none =>
    have hm : lookupD (d.map fun p => match lookupD u p.1 with
        | some v => (p.1, v)
        | none => p) k = none := by
      rw [lookupD_map_overwrite, hd]
    rw [lookupD_append_none _ _ _ hm, lookupD_filter_none _ _ _ hu]

/-! ### Pagination-loop helpers -/

lemma fetchAux_step (api : Nat → Except String PageData) (fuel idx : Nat)
    (params : Dict) (rows : List Record) (d : PageData)
    (h : api idx = .ok d) (hres : d.results ≠ []) (hli : lastIndexesOf d ≠ []) :
    fetchAux api (fuel + 1) idx params rows =
      fetchAux api fuel (idx + 1) (dictUpdate params (lastIndexesOf d)) (rows ++ d.results) := by
  simp [fetchAux, h, hres, hli]

lemma fetchAux_empty_page (api : Nat → Except String PageData) (fuel idx : Nat)
    (params : Dict) (rows : List Record) (d : PageData)
    (h : api idx = .ok d) (hres : d.results = []) :
    fetchAux api (fuel + 1) idx params rows = ⟨.ok rows, idx + 1⟩ := by
  simp [fetchAux, h, hres]

lemma fetchAux_cursor_done (api : Nat → Except String PageData) (fuel idx : Nat)
    (params : Dict) (rows : List Record) (d : PageData)
    (h : api idx = .ok d) (hres : d.results ≠ []) (hli : lastIndexesOf d = []) :
    fetchAux api (fuel + 1) idx params rows = ⟨.ok (rows ++ d.results), idx + 1⟩ := by
  simp [fetchAux, h, hres, hli]

lemma fetchAux_full (api : Nat → Except String PageData) :
    ∀ (fuel idx : Nat) (params : Dict) (rows : List Record),
    (∀ i, idx ≤ i → i < idx + fuel →
      ∃ d, api i = .ok d ∧ d.results ≠ [] ∧ lastIndexesOf d ≠ []) →
    fetchAux api fuel idx params rows =
      ⟨.ok (rows ++ pagesConcat api idx fuel), idx + fuel⟩ := by
  intro fuel
  induction fuel with
  | zero =>
    intro idx params rows _
    simp [fetchAux, pagesConcat]
  | succ n ih =>
    intro idx params rows h
    obtain ⟨d, hd, hres, hli⟩ := h idx (le_refl idx) (by omega)
    rw [fetchAux_step api n idx params rows d hd hres hli]
    rw [ih (idx + 1) _ _ (fun i h1 h2 => h i (by omega) (by omega))]
    simp only [FetchResult.mk.injEq]
    constructor
    · simp [pagesConcat, okResults, hd, List.append_assoc]
    · omega

lemma fetchAux_calls_le (api : Nat → Except String PageData) :
    ∀ (fuel idx : Nat) (params : Dict) (rows : List Record),
    (fetchAux api fuel idx params rows).calls ≤ idx + fuel := by
  intro fuel
  induction fuel with
  | zero => intro idx params rows; simp [fetchAux]
  | succ n ih =>
    intro idx params rows
    cases hd : api idx with
    | error e =>
      simp [fetchAux, hd]
    | ok d =>
      cases hres : d.results.isEmpty with
      | true =>
        simp [fetchAux, hd, hres]
      | false =>
        cases hli : (lastIndexesOf d).isEmpty with
        | true =>
          simp [fetchAux, hd, hres, hli]
        | false =>
          have hstep : fetchAux api (n + 1) idx params rows =
              fetchAux api n (idx + 1) (dictUpdate params (lastIndexesOf d))
                (rows ++ d.results) := by
            simp [fetchAux, hd, hres, hli]
          rw [hstep]
          have := ih (idx + 1) (dictUpdate params (lastIndexesOf d)) (rows ++ d.results)
          omega

/-! ### Chunked-insert helpers -/

lemma chunkedInsertLoop_noFail {α β : Type} (mk : α → β) (K : Nat) :
    ∀ (l : List α) (i : Nat) (committed pending : List β) (commits inserted : Nat),
    0 < K → 1 ≤ i →
    chunkedInsertLoop mk K none l i committed pending commits inserted =
      ⟨committed ++ pending ++ l.map mk,
       commits + ((i - 1 + l.length) / K - (i - 1) / K) + 1,
       .ok (inserted + l.length)⟩ := by
  intro l
  induction l with
  | nil =>
    intro i committed pending commits inserted hK hi
    simp [chunkedInsertLoop]
  | cons r rest ih =>
    intro i committed pending commits inserted hK hi
    obtain ⟨i', rfl⟩ : ∃ i', i = i' + 1 := ⟨i - 1, by omega⟩
    cases hKi : (i' + 1) % K == 0 with
    | false =>
      have hstep : chunkedInsertLoop mk K none (r :: rest) (i' + 1) committed pending
            commits inserted =
          chunkedInsertLoop mk K none rest (i' + 1 + 1) committed (pending ++ [mk r])
            commits (inserted + 1) := by
        simp [chunkedInsertLoop, failsHere, hKi]
      rw [hstep, ih (i' + 1 + 1) _ _ _ _ hK (by omega)]
      have hndvd : ¬ K ∣ (i' + 1) := by
        intro hdvd
        have := Nat.mod_eq_zero_of_dvd hdvd
        simp [this] at hKi
      have hsd : (i' + 1) / K = i' / K := Nat.succ_div_of_not_dvd hndvd
      simp only [WriteOut.mk.injEq, Nat.add_sub_cancel, List.length_cons]
      refine ⟨by simp, ?_, by simp; omega⟩
      have hnum : i' + 1 + rest.length = i' + (rest.length + 1) := by omega
      rw [hnum, hsd]
    | true =>
      have hstep : chunkedInsertLoop mk K none (r :: rest) (i' + 1) committed pending
            commits inserted =
          chunkedInsertLoop mk K none rest (i' + 1 + 1) (committed ++ (pending ++ [mk r])) []
            (commits + 1) (inserted + 1) := by
        simp [chunkedInsertLoop, failsHere, hKi]
      rw [hstep, ih (i' + 1 + 1) _ _ _ _ hK (by omega)]
      have hdvd : K ∣ (i' + 1) := by
        have : (i' + 1) % K = 0 := by simpa using hKi
        exact Nat.dvd_of_mod_eq_zero this
      have hsd : (i' + 1) / K = i' / K + 1 := Nat.succ_div_of_dvd hdvd
      simp only [WriteOut.mk.injEq, Nat.add_sub_cancel, List.length_cons]
      refine ⟨by simp, ?_, by simp; omega⟩
      have hnum : i' + 1 + rest.length = i' + (rest.length + 1) := by omega
      rw [hnum]
      have hmono : (i' + 1) / K ≤ (i' + (rest.length + 1)) / K :=
        Nat.div_le_div_right (by omega)
      omega

lemma chunkedInsertLoop_fail {α β : Type} (mk : α → β) (K : Nat) (j : Nat) (msg : String) :
    ∀ (rest processed : List α) (i : Nat) (committed pending : List β)
      (commits inserted : Nat), 0 < K →
    i = processed.length + 1 →
    committed = (processed.take (K * (processed.length / K))).map mk →
    pending = (processed.drop (K * (processed.length / K))).map mk →
    commits = processed.length / K →
    inserted = processed.length →
    processed.length + 1 ≤ j → j ≤ processed.length + rest.length →
    chunkedInsertLoop mk K (some (j, msg)) rest i committed pending commits inserted =
      ⟨((processed ++ rest).take (K * ((j - 1) / K))).map mk, (j - 1) / K, .error msg⟩ := by
  intro rest
  induction rest with
  | nil =>
    intro processed i committed pending commits inserted hK hi hc hpnd hcm hins h1 h2
    exfalso
    simp at h2
    omega
  | cons r rest' ih =>
    intro processed i committed pending commits inserted hK hi hc hpnd hcm hins h1 h2
    subst hi hc hpnd hcm hins
    by_cases hij : j = processed.length + 1
    · have hstep : chunkedInsertLoop mk K (some (j, msg)) (r :: rest')
            (processed.length + 1)
            ((processed.take (K * (processed.length / K))).map mk)
            ((processed.drop (K * (processed.length / K))).map mk)
            (processed.length / K) processed.length =
          ⟨(processed.take (K * (processed.length / K))).map mk, processed.length / K,
           .error msg⟩ := by
        simp [chunkedInsertLoop, failsHere, hij]
      rw [hstep]
      have hj1 : j - 1 = processed.length := by omega
      rw [hj1]
      have hle : K * (processed.length / K) ≤ processed.length := by
        rw [Nat.mul_comm]
        exact Nat.div_mul_le_self processed.length K
      have htake : (processed ++ (r :: rest')).take (K * (processed.length / K)) =
          processed.take (K * (processed.length / K)) := by
        rw [List.take_append_eq_append_take]
        have h0 : K * (processed.length / K) - processed.length = 0 := by omega
        rw [h0]
        simp
      rw [htake]
    · have hfail : failsHere (some (j, msg)) (processed.length + 1) = none := by
        simp [failsHere, hij]
      cases hKi : (processed.length + 1) % K == 0 with
      | true =>
        have hdvd : K ∣ (processed.length + 1) :=
          Nat.dvd_of_mod_eq_zero (by simpa using hKi)
        have hsd : (processed.length + 1) / K = processed.length / K + 1 :=
          Nat.succ_div_of_dvd hdvd
        have hKmul : K * ((processed.length + 1) / K) = processed.length + 1 :=
          Nat.mul_div_cancel' hdvd
        have hstep : chunkedInsertLoop mk K (some (j, msg)) (r :: rest')
              (processed.length + 1)
              ((processed.take (K * (processed.length / K))).map mk)
              ((processed.drop (K * (processed.length / K))).map mk)
              (processed.length / K) processed.length =
            chunkedInsertLoop mk K (some (j, msg)) rest' (processed.length + 1 + 1)
              ((processed.take (K * (processed.length / K))).map mk ++
                ((processed.drop (K * (processed.length / K))).map mk ++ [mk r]))
              [] (processed.length / K + 1) (processed.length + 1) := by
          simp [chunkedInsertLoop, hfail, hKi]
        rw [hstep]
        have hlen : (processed ++ [r]).length = processed.length + 1 := by simp
        have e1 : processed.length + 1 + 1 = (processed ++ [r]).length + 1 := by simp
        have ht : (processed ++ [r]).take (K * ((processed ++ [r]).length / K)) =
            processed ++ [r] := by
          rw [hlen, hKmul]
          exact List.take_of_length_le (by simp)
        have e2 : (processed.take (K * (processed.length / K))).map mk ++
              ((processed.drop (K * (processed.length / K))).map mk ++ [mk r]) =
            ((processed ++ [r]).take (K * ((processed ++ [r]).length / K))).map mk := by
          rw [ht, ← List.append_assoc, ← List.map_append, List.take_append_drop]
          simp
        have hd : (processed ++ [r]).drop (K * ((processed ++ [r]).length / K)) =
            ([] : List α) := by
          rw [hlen, hKmul]
          exact List.drop_eq_nil_of_le (by simp)
        have e3 : ([] : List β) =
            ((processed ++ [r]).drop (K * ((processed ++ [r]).length / K))).map mk := by
          rw [hd]
          simp
        have e4 : processed.length / K + 1 = (processed ++ [r]).length / K := by
          simp [hsd]
        have e5 : processed.length + 1 = (processed ++ [r]).length := by simp
        have b1 : (processed ++ [r]).length + 1 ≤ j := by
          simp
          omega
        have b2 : j ≤ (processed ++ [r]).length + rest'.length := by
          simp at h2 ⊢
          omega
        rw [ih (processed ++ [r]) (processed.length + 1 + 1) _ _ _ _ hK e1 e2 e3 e4 e5 b1 b2]
        simp [List.append_assoc]
      | false =>
        have hndvd : ¬ K ∣ (processed.length + 1) := by
          intro hdvd
          have := Nat.mod_eq_zero_of_dvd hdvd
          simp [this] at hKi
        have hsd : (processed.length + 1) / K = processed.length / K :=
          Nat.succ_div_of_not_dvd hndvd
        have hle : K * (processed.length / K) ≤ processed.length := by
          rw [Nat.mul_comm]
          exact Nat.div_mul_le_self processed.length K
        have hstep : chunkedInsertLoop mk K (some (j, msg)) (r :: rest')
              (processed.length + 1)
              ((processed.take (K * (processed.length / K))).map mk)
              ((processed.drop (K * (processed.length / K))).map mk)
              (processed.length / K) processed.length =
            chunkedInsertLoop mk K (some (j, msg)) rest' (processed.length + 1 + 1)
              ((processed.take (K * (processed.length / K))).map mk)
              ((processed.drop (K * (processed.length / K))).map mk ++ [mk r])
              (processed.length / K) (processed.length + 1) := by
          simp [chunkedInsertLoop, hfail, hKi]
        rw [hstep]
        have hlen : (processed ++ [r]).length = processed.length + 1 := by simp
        have h0 : K * (processed.length / K) - processed.length = 0 := by omega
        have e1 : processed.length + 1 + 1 = (processed ++ [r]).length + 1 := by simp
        have ht : (processed ++ [r]).take (K * ((processed ++ [r]).length / K)) =
            processed.take (K * (processed.length / K)) := by
          rw [hlen, hsd, List.take_append_eq_append_take, h0]
          simp
        have e2 : (processed.take (K * (processed.length / K))).map mk =
            ((processed ++ [r]).take (K * ((processed ++ [r]).length / K))).map mk := by
          rw [ht]
        have hdr : (processed ++ [r]).drop (K * ((processed ++ [r]).length / K)) =
            processed.drop (K * (processed.length / K)) ++ [r] := by
          rw [hlen, hsd, List.drop_append_eq_append_drop, h0]
          simp
        have e3 : (processed.drop (K * (processed.length / K))).map mk ++ [mk r] =
            ((processed ++ [r]).drop (K * ((processed ++ [r]).length / K))).map mk := by
          rw [hdr, List.map_append]
          simp
        have e4 : processed.length / K = (processed ++ [r]).length / K := by
          simp [hsd]
        have e5 : processed.length + 1 = (processed ++ [r]).length := by simp
        have b1 : (processed ++ [r]).length + 1 ≤ j := by
          simp
          omega
        have b2 : j ≤ (processed ++ [r]).length + rest'.length := by
          simp at h2 ⊢
          omega
        rw [ih (processed ++ [r]) (processed.length + 1 + 1) _ _ _ _ hK e1 e2 e3 e4 e5 b1 b2]
        simp [List.append_assoc]

lemma insert_raw_schedule_a_noFail (ts : PyDateTime) (rows : List Record) (K : Nat)
    (hK : 0 < K) (hne : rows ≠ []) :
    insert_raw_schedule_a ts rows K none =
      ⟨rows.map (fun r => ⟨ts, SOURCE, ENDPOINT, r⟩), rows.length / K + 1, .ok rows.length⟩ := by
  unfold insert_raw_schedule_a
  rw [if_neg (by simpa using hne)]
  rw [chunkedInsertLoop_noFail _ K rows 1 [] [] 0 0 hK (le_refl 1)]
  simp

lemma insert_raw_noFail (ts : PyDateTime) (rows : List Record) (K : Nat)
    (hK : 0 < K) (hne : rows ≠ []) :
    insert_raw ts rows K none =
      ⟨rows.map (fun r => ⟨ts, "openfec", r⟩), rows.length / K + 1, .ok rows.length⟩ := by
  unfold insert_raw
  rw [if_neg (by simpa using hne)]
  rw [chunkedInsertLoop_noFail _ K rows 1 [] [] 0 0 hK (le_refl 1)]
  simp

lemma insert_raw_schedule_a_fail (ts : PyDateTime) (rows : List Record) (K j : Nat)
    (msg : String) (hK : 0 < K) (h1 : 1 ≤ j) (h2 : j ≤ rows.length) :
    insert_raw_schedule_a ts rows K (some (j, msg)) =
      ⟨(rows.take (K * ((j - 1) / K))).map (fun r => ⟨ts, SOURCE, ENDPOINT, r⟩),
       (j - 1) / K, .error msg⟩ := by
  have hne : rows ≠ [] := by
    intro h
    subst h
    simp at h2
    omega
  unfold insert_raw_schedule_a
  rw [if_neg (by simpa using hne)]
  have := chunkedInsertLoop_fail (fun r => (⟨ts, SOURCE, ENDPOINT, r⟩ : RawScheduleARow))
      K j msg rows [] 1 [] [] 0 0 hK (by simp) (by simp) (by simp) (by simp) (by simp)
      (by simpa using h1) (by simpa using h2)
  simpa using this

lemma insert_raw_fail (ts : PyDateTime) (rows : List Record) (K j : Nat)
    (msg : String) (hK : 0 < K) (h1 : 1 ≤ j) (h2 : j ≤ rows.length) :
    insert_raw ts rows K (some (j, msg)) =
      ⟨(rows.take (K * ((j - 1) / K))).map (fun r => ⟨ts, "openfec", r⟩),
       (j - 1) / K, .error msg⟩ := by
  have hne : rows ≠ [] := by
    intro h
    subst h
    simp at h2
    omega
  unfold insert_raw
  rw [if_neg (by simpa using hne)]
  have := chunkedInsertLoop_fail (fun r => (⟨ts, "openfec", r⟩ : RawCommitteeRow))
      K j msg rows [] 1 [] [] 0 0 hK (by simp) (by simp) (by simp) (by simp) (by simp)
      (by simpa using h1) (by simpa using h2)
  simpa using this

lemma chunkedInsertLoop_committed_mem {α β : Type} (mk : α → β) (K : Nat)
    (failAt : Option (Nat × String)) :
    ∀ (l : List α) (i : Nat) (committed pending : List β) (commits inserted : Nat) (b : β),
      b ∈ (chunkedInsertLoop mk K failAt l i committed pending commits inserted).committed →
      b ∈ committed ∨ b ∈ pending ∨ ∃ a ∈ l, b = mk a := by
  intro l
  induction l with
  | nil =>
    intro i committed pending commits inserted b hb
    simp [chunkedInsertLoop] at hb
    rcases hb with h | h
    · exact Or.inl h
    · exact Or.inr (Or.inl h)
  | cons r rest ih =>
    intro i committed pending commits inserted b hb
    cases hfh : failsHere failAt i with
    | some msg =>
      simp [chunkedInsertLoop, hfh] at hb
      exact Or.inl hb
    | none =>
      cases hKi : i % K == 0 with
      | true =>
        have hstep : chunkedInsertLoop mk K failAt (r :: rest) i committed pending
              commits inserted =
            chunkedInsertLoop mk K failAt rest (i + 1) (committed ++ (pending ++ [mk r])) []
              (commits + 1) (inserted + 1) := by
          simp [chunkedInsertLoop, hfh, hKi]
        rw [hstep] at hb
        rcases ih (i + 1) _ _ _ _ b hb with h | h | ⟨a, ha, rfl⟩
        · simp only [List.mem_append, List.mem_singleton] at h
          rcases h with h | h | h
          · exact Or.inl h
          · exact Or.inr (Or.inl h)
          · exact Or.inr (Or.inr ⟨r, List.mem_cons_self r rest, h⟩)
        · cases h
        · exact Or.inr (Or.inr ⟨a, List.mem_cons_of_mem r ha, rfl⟩)
      | false =>
        have hstep : chunkedInsertLoop mk K failAt (r :: rest) i committed pending
              commits inserted =
            chunkedInsertLoop mk K failAt rest (i + 1) committed (pending ++ [mk r])
              commits (inserted + 1) := by
          simp [chunkedInsertLoop, hfh, hKi]
        rw [hstep] at hb
        rcases ih (i + 1) _ _ _ _ b hb with h | h | ⟨a, ha, rfl⟩
        · exact Or.inl h
        · simp only [List.mem_append, List.mem_singleton] at h
          rcases h with h | h
          · exact Or.inr (Or.inl h)
          · exact Or.inr (Or.inr ⟨r, List.mem_cons_self r rest, h⟩)
        · exact Or.inr (Or.inr ⟨a, List.mem_cons_of_mem r ha, rfl⟩)

lemma pyTrunc_length_le (s : String) (n : Nat) : (pyTrunc s n).length ≤ n := by
  show (s.data.take n).length ≤ n
  rw [List.length_take]
  exact Nat.min_le_left _ _

/-- A starting parameter set for the merge witnesses. -/
def paramsW : Dict := [("per_page", "100"), ("sort", "contribution_receipt_date")]

/-- A cursor mapping colliding with `per_page`-free keys. -/
def cursorW : Dict := [("last_index", "42"), ("last_contribution_receipt_date", "2024-01-01")]

/-- The page `apiFull` serves on request 0. -/
def pageW : PageData := ⟨[⟨none, "0"⟩], some ⟨some [("last_index", "0")]⟩⟩

/-! ### Claim theorems -/

/-- Claim C8: `get_last_watermark` returns the maximum `last_indexed_date`
over the store's rows matching the `(source, endpoint)` pair with status
SUCCESS (it bounds every such row and is attained by one of them); with no
such row — including an empty store — it deterministically returns the
1900-01-01 sentinel; and prepending any row whose status is not SUCCESS (in
particular a FAILED row) never changes the returned value. -/
theorem get_last_watermark_spec (store : List RunLogRow) :
    (matchingRuns store = [] → get_last_watermark store = epoch1900)
    ∧ (∀ r ∈ store, r.source = SOURCE → r.endpoint = ENDPOINT → r.status = "SUCCESS" →
        dtLe r.last_indexed_date (get_last_watermark store) = true)
    ∧ (matchingRuns store ≠ [] →
        get_last_watermark store ∈ (matchingRuns store).map (·.last_indexed_date))
    ∧ (∀ r : RunLogRow, r.status ≠ "SUCCESS" →
        get_last_watermark (r :: store) = get_last_watermark store) := by
  refine ⟨glw_nil store, ?_, glw_mem store, fun r h => glw_cons_skip store r h⟩
  intro r hr hs he hst
  simpa [dtLe] using glw_upper store r hr hs he hst

/-- Witness for C8: on an empty store the sentinel comes back; on `store0` a
prepended FAILED row changes nothing and the stored SUCCESS watermark bounds
the result. -/
theorem get_last_watermark_witness :
    get_last_watermark ([] : List RunLogRow) = epoch1900
    ∧ get_last_watermark (failedRow0 :: store0) = get_last_watermark store0
    ∧ dtLe ⟨2023, 1, 2, 10, 0, 0⟩ (get_last_watermark store0) = true := by
  refine ⟨(get_last_watermark_spec []).1 rfl, ?_, ?_⟩
  · exact (get_last_watermark_spec store0).2.2.2 failedRow0 (by decide)
  · exact (get_last_watermark_spec store0).2.1
      ⟨"openfec", "/schedules/schedule_a/", ⟨2023, 1, 2, 10, 0, 0⟩, ⟨2023, 1, 2, 11, 0, 0⟩,
       "SUCCESS", 5, ""⟩ (by decide) rfl rfl rfl

/-- Claim C9: every row persisted by one raw-writer call carries the single
`ingest_ts` taken before the insert loop — for the Schedule A writer and the
committees writer alike, whether or not the call fails part-way. -/
theorem ingest_ts_uniform_spec :
    (∀ (ts : PyDateTime) (rows : List Record) (K : Nat) (fa : Option (Nat × String))
       (b : RawScheduleARow), b ∈ (insert_raw_schedule_a ts rows K fa).committed →
       b.ingest_ts = ts)
    ∧ (∀ (ts : PyDateTime) (rows : List Record) (K : Nat) (fa : Option (Nat × String))
       (b : RawCommitteeRow), b ∈ (insert_raw ts rows K fa).committed →
       b.ingest_ts = ts) := by
  constructor
  · intro ts rows K fa b hb
    unfold insert_raw_schedule_a at hb
    by_cases hne : rows.isEmpty
    · rw [if_pos hne] at hb
      cases hb
    · rw [if_neg hne] at hb
      rcases chunkedInsertLoop_committed_mem _ K fa rows 1 [] [] 0 0 b hb
        with h | h | ⟨a, _, rfl⟩
      · cases h
      · cases h
      · rfl
  · intro ts rows K fa b hb
    unfold insert_raw at hb
    by_cases hne : rows.isEmpty
    · rw [if_pos hne] at hb
      cases hb
    · rw [if_neg hne] at hb
      rcases chunkedInsertLoop_committed_mem _ K fa rows 1 [] [] 0 0 b hb
        with h | h | ⟨a, _, rfl⟩
      · cases h
      · cases h
      · rfl

/-- Witness for C9: the one row landed for `rec0` carries `now0`. -/
theorem ingest_ts_uniform_witness :
    (⟨now0, "openfec", "/schedules/schedule_a/", rec0⟩ : RawScheduleARow) ∈
      (insert_raw_schedule_a now0 [rec0] 500 none).committed
    ∧ (⟨now0, "openfec", "/schedules/schedule_a/", rec0⟩ : RawScheduleARow).ingest_ts = now0 := by
  refine ⟨by decide, ?_⟩
  exact ingest_ts_uniform_spec.1 now0 [rec0] 500 none _ (by decide)

/-- Claim C3: with `commit_every = K > 0` a raw writer commits after each
K-th record and once more at the end — `n / K + 1` commit calls, all `n`
rows persisted — and a failure while executing record `j` persists exactly
the records up to the last commit boundary strictly before `j` (a multiple
of K) and propagates the error; both for the Schedule A writer and the
committees writer. -/
theorem chunked_commit_spec :
    (∀ (ts : PyDateTime) (rows : List Record) (K : Nat), 0 < K → rows ≠ [] →
      insert_raw_schedule_a ts rows K none =
        ⟨rows.map (fun r => ⟨ts, SOURCE, ENDPOINT, r⟩), rows.length / K + 1,
         .ok rows.length⟩)
    ∧ (∀ (ts : PyDateTime) (rows : List Record) (K j : Nat) (msg : String),
        0 < K → 1 ≤ j → j ≤ rows.length →
        insert_raw_schedule_a ts rows K (some (j, msg)) =
          ⟨(rows.take (K * ((j - 1) / K))).map (fun r => ⟨ts, SOURCE, ENDPOINT, r⟩),
           (j - 1) / K, .error msg⟩)
    ∧ (∀ (ts : PyDateTime) (rows : List Record) (K : Nat), 0 < K → rows ≠ [] →
        insert_raw ts rows K none =
          ⟨rows.map (fun r => ⟨ts, "openfec", r⟩), rows.length / K + 1, .ok rows.length⟩)
    ∧ (∀ (ts : PyDateTime) (rows : List Record) (K j : Nat) (msg : String),
        0 < K → 1 ≤ j → j ≤ rows.length →
        insert_raw ts rows K (some (j, msg)) =
          ⟨(rows.take (K * ((j - 1) / K))).map (fun r => ⟨ts, "openfec", r⟩),
           (j - 1) / K, .error msg⟩) :=
  ⟨fun ts rows K hK hne => insert_raw_schedule_a_noFail ts rows K hK hne,
   fun ts rows K j msg hK h1 h2 => insert_raw_schedule_a_fail ts rows K j msg hK h1 h2,
   fun ts rows K hK hne => insert_raw_noFail ts rows K hK hne,
   fun ts rows K j msg hK h1 h2 => insert_raw_fail ts rows K j msg hK h1 h2⟩

/-- Witness for C3: the spec's scenario — 1250 records, K = 500 — gives
exactly 3 commits and 1250 rows; a fault on record 600 leaves exactly 500
rows and propagates the error. -/
theorem chunked_commit_witness :
    (insert_raw_schedule_a now0 rows1250 500 none).commits = 3
    ∧ (insert_raw_schedule_a now0 rows1250 500 none).result = .ok 1250
    ∧ (insert_raw_schedule_a now0 rows1250 500 none).committed.length = 1250
    ∧ (insert_raw_schedule_a now0 rows1250 500 (some (600, "boom"))).committed.length = 500
    ∧ (insert_raw_schedule_a now0 rows1250 500 (some (600, "boom"))).result =
        .error "boom" := by
  have hlen : rows1250.length = 1250 := by
    show (List.replicate 1250 (⟨none, "r"⟩ : Record)).length = 1250
    rw [List.length_replicate]
  have hne : rows1250 ≠ [] := by
    intro h
    rw [h] at hlen
    simp at hlen
  have e1 := chunked_commit_spec.1 now0 rows1250 500 (by norm_num) hne
  have e2 := chunked_commit_spec.2.1 now0 rows1250 500 600 "boom" (by norm_num)
    (by norm_num) (by rw [hlen]; norm_num)
  rw [e1, e2]
  refine ⟨?_, ?_, ?_, ?_, rfl⟩
  · show rows1250.length / 500 + 1 = 3
    rw [hlen]
  · show Except.ok rows1250.length = Except.ok 1250
    rw [hlen]
  · show ((rows1250.map _).length = 1250)
    rw [List.length_map, hlen]
  · show ((rows1250.take (500 * ((600 - 1) / 500))).map _).length = 500
    rw [List.length_map, List.length_take, hlen]
    decide

/-- Claim C5: a page whose result list is empty terminates pagination at
once — the empty-results check precedes the cursor check, so even a page
carrying a non-empty `last_indexes` stops the loop — contributing none of
its (nonexistent) records; run from the start, such a first page yields an
empty batch after exactly one request. -/
theorem empty_results_terminate_spec :
    (∀ (api : Nat → Except String PageData) (fuel idx : Nat) (params : Dict)
       (rows : List Record) (d : PageData), api idx = .ok d → d.results = [] →
       fetchAux api (fuel + 1) idx params rows = ⟨.ok rows, idx + 1⟩)
    ∧ (∀ (api : Nat → Except String PageData) (wm : PyDateTime) (pp mb yr : Nat)
       (d : PageData), api 0 = .ok d → d.results = [] →
       fetch_schedule_a_keyset api wm pp (mb + 1) yr = ⟨.ok [], 1⟩) := by
  constructor
  · exact fun api fuel idx params rows d h hres =>
      fetchAux_empty_page api fuel idx params rows d h hres
  · intro api wm pp mb yr d h hres
    unfold fetch_schedule_a_keyset
    exact fetchAux_empty_page api mb 0 _ [] d h hres

/-- Witness for C5: `apiEmpty0` answers with empty results but a live
cursor; the batch is empty after exactly one request. -/
theorem empty_results_terminate_witness :
    fetch_schedule_a_keyset apiEmpty0 now0 100 (4 + 1) 2024 = ⟨.ok [], 1⟩ :=
  empty_results_terminate_spec.2 apiEmpty0 now0 100 4 2024
    ⟨[], some ⟨some [("last_index", "7")]⟩⟩ rfl rfl

/-- Claim C6: when every page comes back non-empty with a live cursor, the
accumulator issues exactly `max_batches` requests, stops normally, and
returns the pages' results concatenated in fetch order; and no run of the
loop ever issues more than `max_batches` requests. -/
theorem batch_ceiling_spec :
    (∀ (api : Nat → Except String PageData) (wm : PyDateTime) (pp mb yr : Nat),
      (∀ i, i < mb → ∃ d, api i = .ok d ∧ d.results ≠ [] ∧ lastIndexesOf d ≠ []) →
      fetch_schedule_a_keyset api wm pp mb yr = ⟨.ok (pagesConcat api 0 mb), mb⟩)
    ∧ (∀ (api : Nat → Except String PageData) (wm : PyDateTime) (pp mb yr : Nat),
        (fetch_schedule_a_keyset api wm pp mb yr).calls ≤ mb) := by
  constructor
  · intro api wm pp mb yr h
    unfold fetch_schedule_a_keyset
    rw [fetchAux_full api mb 0 _ [] (fun i _ h2 => h i (by omega))]
    simp
  · intro api wm pp mb yr
    unfold fetch_schedule_a_keyset
    simpa using fetchAux_calls_le api mb 0 _ []

/-- Witness for C6: `apiFull` always has data and a cursor; five batches are
fetched, then the loop stops. -/
theorem batch_ceiling_witness :
    fetch_schedule_a_keyset apiFull now0 100 5 2024 = ⟨.ok (pagesConcat apiFull 0 5), 5⟩
    ∧ (pagesConcat apiFull 0 5).length = 5 := by
  refine ⟨?_, rfl⟩
  exact batch_ceiling_spec.1 apiFull now0 100 5 2024
    (fun i _ => ⟨⟨[⟨none, toString i⟩], some ⟨some [("last_index", toString i)]⟩⟩,
      rfl, by simp, by simp [lastIndexesOf]⟩)

/-- Claim C4: after a page with results and cursor fields, the next
request's parameter set is exactly the previous one with `last_indexes`
merged in — a key named by the cursor takes the cursor's value, every other
key (`per_page`, `sort`, `min_load_date`, the period filter, ...) keeps its
value — and an absent or empty `last_indexes` ends pagination normally, with
the page's rows kept and no further request issued. -/
theorem keyset_advance_spec :
    (∀ (api : Nat → Except String PageData) (fuel idx : Nat) (params : Dict)
       (rows : List Record) (d : PageData),
       api idx = .ok d → d.results ≠ [] → lastIndexesOf d ≠ [] →
       fetchAux api (fuel + 1) idx params rows =
         fetchAux api fuel (idx + 1) (dictUpdate params (lastIndexesOf d))
           (rows ++ d.results))
    ∧ (∀ (params u : Dict) (k : String), k ∈ keysOf u →
        lookupD (dictUpdate params u) k = lookupD u k)
    ∧ (∀ (params u : Dict) (k : String), k ∉ keysOf u →
        lookupD (dictUpdate params u) k = lookupD params k)
    ∧ (∀ (api : Nat → Except String PageData) (fuel idx : Nat) (params : Dict)
       (rows : List Record) (d : PageData),
       api idx = .ok d → d.results ≠ [] → lastIndexesOf d = [] →
       fetchAux api (fuel + 1) idx params rows = ⟨.ok (rows ++ d.results), idx + 1⟩)
    ∧ (∀ rs : List Record, lastIndexesOf ⟨rs, none⟩ = [] ∧ lastIndexesOf ⟨rs, some ⟨none⟩⟩ = []) :=
  ⟨fun api fuel idx params rows d h hres hli =>
      fetchAux_step api fuel idx params rows d h hres hli,
   fun params u k h => lookupD_dictUpdate_mem params u k h,
   fun params u k h => lookupD_dictUpdate_not_mem params u k h,
   fun api fuel idx params rows d h hres hli =>
      fetchAux_cursor_done api fuel idx params rows d h hres hli,
   fun _ => ⟨rfl, rfl⟩⟩

/-- Witness for C4: one concrete advance (the second request of `apiFull`
uses the merged parameters), a colliding key takes the cursor value, and a
non-cursor key keeps its value. -/
theorem keyset_advance_witness :
    fetchAux apiFull (1 + 1) 0 paramsW [] =
      fetchAux apiFull 1 (0 + 1) (dictUpdate paramsW (lastIndexesOf pageW))
        ([] ++ pageW.results)
    ∧ lookupD (dictUpdate cursorW cursorW) "last_index" = lookupD cursorW "last_index"
    ∧ lookupD (dictUpdate paramsW cursorW) "per_page" = lookupD paramsW "per_page" := by
  refine ⟨?_, ?_, ?_⟩
  · exact keyset_advance_spec.1 apiFull 1 0 paramsW [] pageW rfl (by decide) (by decide)
  · exact keyset_advance_spec.2.1 cursorW cursorW "last_index" (by decide)
  · exact keyset_advance_spec.2.2.1 paramsW cursorW "per_page" (by decide)

/-- Claim C2: an exception during fetch — or during the write phase — makes
the run append exactly one FAILED row to `ingest_runs`, carrying the very
watermark the run started from, `rows_loaded = 0` and the error message
truncated to at most 500 characters, and then re-raise that exception. -/
theorem failure_logging_spec (store : List RunLogRow) (now : PyDateTime)
    (api : Nat → Except String PageData) (wf : Option (Nat × String)) :
    (∀ e : String,
      (fetch_schedule_a_keyset api (resolveWatermark store now) 100 5 now.year).outcome =
        .error e →
      runOnce store now api wf =
        ⟨[log_run now "FAILED" (resolveWatermark store now) 0 (pyTrunc e 500)], some e, []⟩
      ∧ (pyTrunc e 500).length ≤ 500)
    ∧ (∀ (rows : List Record) (j : Nat) (msg : String),
        (fetch_schedule_a_keyset api (resolveWatermark store now) 100 5 now.year).outcome =
          .ok rows →
        wf = some (j, msg) → 1 ≤ j → j ≤ rows.length →
        runOnce store now api wf =
          ⟨[log_run now "FAILED" (resolveWatermark store now) 0 (pyTrunc msg 500)], some msg,
           (rows.take (500 * ((j - 1) / 500))).map (fun r => ⟨now, SOURCE, ENDPOINT, r⟩)⟩
        ∧ (pyTrunc msg 500).length ≤ 500) := by
  constructor
  · intro e he
    refine ⟨?_, pyTrunc_length_le e 500⟩
    simp [runOnce, he]
  · intro rows j msg hok hwf h1 h2
    refine ⟨?_, pyTrunc_length_le msg 500⟩
    subst hwf
    have hw := insert_raw_schedule_a_fail now rows 500 j msg (by norm_num) h1 h2
    simp [runOnce, hok, hw]

/-- Witness for C2: a failing fetch and a failing write each log one FAILED
row with the pre-run watermark of `store0` and re-raise. -/
theorem failure_logging_witness :
    runOnce store0 now0 apiErr none =
      ⟨[log_run now0 "FAILED" (resolveWatermark store0 now0) 0 (pyTrunc "HTTP 500" 500)],
       some "HTTP 500", []⟩
    ∧ runOnce store0 now0 api3 (some (2, "db boom")) =
      ⟨[log_run now0 "FAILED" (resolveWatermark store0 now0) 0 (pyTrunc "db boom" 500)],
       some "db boom", []⟩ := by
  constructor
  · exact ((failure_logging_spec store0 now0 apiErr none).1 "HTTP 500" rfl).1
  · have h := ((failure_logging_spec store0 now0 api3 (some (2, "db boom"))).2
      [rec0, rec1] 2 "db boom" rfl rfl (by norm_num) (by norm_num)).1
    simpa using h

/-- Claim C7: a run whose fetch returns zero records completes as SUCCESS,
logging the very watermark it started from with `rows_loaded = 0`; the raw
writer is a no-op returning 0 on an empty batch, and `compute_new_watermark`
of no rows is its fallback. -/
theorem empty_fetch_success_spec (store : List RunLogRow) (now : PyDateTime)
    (api : Nat → Except String PageData) (wf : Option (Nat × String))
    (h : (fetch_schedule_a_keyset api (resolveWatermark store now) 100 5 now.year).outcome =
      .ok []) :
    runOnce store now api wf =
      ⟨[log_run now "SUCCESS" (resolveWatermark store now) 0
          "Schedule A keyset load (max_batches=5)"], none, []⟩
    ∧ (∀ (ts : PyDateTime) (K : Nat) (fa : Option (Nat × String)),
        insert_raw_schedule_a ts [] K fa = ⟨[], 0, .ok 0⟩)
    ∧ (∀ wm : PyDateTime, compute_new_watermark [] wm = wm) := by
  refine ⟨?_, fun ts K fa => rfl, fun wm => rfl⟩
  simp [runOnce, h, insert_raw_schedule_a, compute_new_watermark, loadDates]

/-- Witness for C7: `apiEmpty0` returns an empty first page; the run logs
SUCCESS with `store0`'s resolved watermark and zero rows. -/
theorem empty_fetch_success_witness :
    runOnce store0 now0 apiEmpty0 none =
      ⟨[log_run now0 "SUCCESS" (resolveWatermark store0 now0) 0
          "Schedule A keyset load (max_batches=5)"], none, []⟩ :=
  (empty_fetch_success_spec store0 now0 apiEmpty0 none rfl).1

/-- Claim C10: with no prior matching SUCCESS row, resolution hits the
sentinel and the orchestrator substitutes the 30-day lookback; should the
fetch then fail, the FAILED row records that substituted lookback value —
not the sentinel — as `last_indexed_date`, a value no successful run (there
is none for the pair) ever committed. -/
theorem first_run_failure_watermark_spec (store : List RunLogRow) (now : PyDateTime)
    (api : Nat → Except String PageData) (wf : Option (Nat × String))
    (hstore : ∀ r ∈ store,
      ¬(r.source = SOURCE ∧ r.endpoint = ENDPOINT ∧ r.status = "SUCCESS")) :
    resolveWatermark store now = sub30days now
    ∧ (∀ e : String,
        (fetch_schedule_a_keyset api (sub30days now) 100 5 now.year).outcome = .error e →
        runOnce store now api wf =
          ⟨[log_run now "FAILED" (sub30days now) 0 (pyTrunc e 500)], some e, []⟩)
    ∧ (∀ (rows : List Record) (j : Nat) (msg : String),
        (fetch_schedule_a_keyset api (sub30days now) 100 5 now.year).outcome = .ok rows →
        wf = some (j, msg) → 1 ≤ j → j ≤ rows.length →
        runOnce store now api wf =
          ⟨[log_run now "FAILED" (sub30days now) 0 (pyTrunc msg 500)], some msg,
           (rows.take (500 * ((j - 1) / 500))).map (fun r => ⟨now, SOURCE, ENDPOINT, r⟩)⟩)
    ∧ (startsWithEpochDay (sub30days now) = false → sub30days now ≠ epoch1900) := by
  have hmr : matchingRuns store = [] := by
    rw [matchingRuns, List.filter_eq_nil_iff]
    intro r hr
    simpa [and_assoc] using hstore r hr
  have hres : resolveWatermark store now = sub30days now := by
    unfold resolveWatermark
    rw [glw_nil store hmr]
    simp [startsWithEpochDay, epoch1900]
  refine ⟨hres, ?_, ?_, ?_⟩
  · intro e hf
    simp [runOnce, hres, hf]
  · intro rows j msg hok hwf h1 h2
    subst hwf
    have hw := insert_raw_schedule_a_fail now rows 500 j msg (by norm_num) h1 h2
    simp [runOnce, hres, hok, hw]
  · intro hsw heq
    rw [heq] at hsw
    simp [startsWithEpochDay, epoch1900] at hsw

/-- Witness for C10: on an empty store, both a failing fetch and a failing
write log the 30-day lookback from `now0` (2024-05-02) — which differs from
the sentinel — as the FAILED row's watermark. -/
theorem first_run_failure_watermark_witness :
    resolveWatermark [] now0 = sub30days now0
    ∧ runOnce [] now0 apiErr none =
        ⟨[log_run now0 "FAILED" (sub30days now0) 0 (pyTrunc "HTTP 500" 500)],
         some "HTTP 500", []⟩
    ∧ runOnce [] now0 api3 (some (2, "db boom")) =
        ⟨[log_run now0 "FAILED" (sub30days now0) 0 (pyTrunc "db boom" 500)],
         some "db boom", []⟩
    ∧ sub30days now0 ≠ epoch1900 := by
  have h1 := first_run_failure_watermark_spec [] now0 apiErr none (by simp)
  have h2 := first_run_failure_watermark_spec [] now0 api3 (some (2, "db boom")) (by simp)
  refine ⟨h1.1, h1.2.1 "HTTP 500" rfl, ?_, h1.2.2.2 (by decide)⟩
  have hwr := h2.2.2.1 [rec0, rec1] 2 "db boom" rfl rfl (by norm_num) (by norm_num)
  simpa using hwr

/-- Claim C1, amended: watermark resolution is an upper bound of every
committed SUCCESS watermark for the pair — so each resolved watermark is ≥
the previous run's committed one — and the value handed to `log_run` on the
SUCCESS path, `compute_new_watermark rows wm`, is ≥ the resolved watermark
`wm` whenever every parsed `load_date` of the fetched rows is ≥ `wm`.
Without that proviso the claim fails: a fetched row may carry a `load_date`
earlier than `wm` (the `min_load_date` filter is date-truncated), making the
logged SUCCESS watermark smaller than the resolved one. -/
theorem watermark_monotonic_spec :
    (∀ (store : List RunLogRow) (r : RunLogRow), r ∈ store → r.source = SOURCE →
      r.endpoint = ENDPOINT → r.status = "SUCCESS" →
      dtLe r.last_indexed_date (get_last_watermark store) = true)
    ∧ (∀ (rows : List Record) (wm : PyDateTime),
        (∀ s ∈ loadDates rows, ∀ d, fromisoformat s = some d → dtLe wm d = true) →
        dtLe wm (compute_new_watermark rows wm) = true) := by
  constructor
  · intro store r hr hs he hst
    simpa [dtLe] using glw_upper store r hr hs he hst
  · intro rows wm h
    unfold compute_new_watermark
    cases hle : (loadDates rows).isEmpty with
    | true => simp [hle, dtLe]
    | false =>
      simp only [hle, Bool.false_eq_true, if_false]
      cases hp : (loadDates rows).filterMap fromisoformat with
      | nil => simp [dtLe]
      | cons p ps =>
        have hpmem : p ∈ (loadDates rows).filterMap fromisoformat := by
          rw [hp]
          exact List.mem_cons_self p ps
        obtain ⟨s, hs, hsp⟩ := List.mem_filterMap.1 hpmem
        have hwp : toKey wm ≤ toKey p := by
          simpa [dtLe] using h s hs p hsp
        simpa [dtLe, pyMaxList] using le_trans hwp (toKey_le_foldl ps p)

/-- Witness for the amended C1: the resolved watermark of `store0` bounds
its committed SUCCESS row, and over `rec0` with a smaller fallback the
computed watermark does not regress below the fallback. -/
theorem watermark_monotonic_witness :
    dtLe ⟨2023, 1, 2, 10, 0, 0⟩ (get_last_watermark store0) = true
    ∧ dtLe ⟨2023, 1, 1, 0, 0, 0⟩
        (compute_new_watermark [rec0] ⟨2023, 1, 1, 0, 0, 0⟩) = true := by
  constructor
  · exact watermark_monotonic_spec.1 store0
      ⟨"openfec", "/schedules/schedule_a/", ⟨2023, 1, 2, 10, 0, 0⟩, ⟨2023, 1, 2, 11, 0, 0⟩,
       "SUCCESS", 5, ""⟩ (by decide) rfl rfl rfl
  · refine watermark_monotonic_spec.2 [rec0] ⟨2023, 1, 1, 0, 0, 0⟩ ?_
    intro s hs d hd
    have hs' : s = "2023-01-02T05:00:00" := by
      simpa [loadDates, rec0] using hs
    subst hs'
    have h0 : fromisoformat "2023-01-02T05:00:00" = some ⟨2023, 1, 2, 5, 0, 0⟩ := rfl
    rw [h0] at hd
    injection hd with hd'
    rw [← hd']
    decide

/-- Counterexample to C1 as stated: from resolved watermark
2023-01-02T10:00:00, a run over one fetched record with `load_date`
2023-01-02T05:00:00 (which passes the date-truncated `min_load_date` filter)
logs SUCCESS, and the value passed to `log_run` is strictly smaller than the
resolved watermark the run started from. -/
theorem watermark_monotonic_counterexample :
    (runOnce store0 now0 api0 none).raised = none
    ∧ (runOnce store0 now0 api0 none).logs =
        [log_run now0 "SUCCESS" ⟨2023, 1, 2, 5, 0, 0⟩ 1
          "Schedule A keyset load (max_batches=5)"]
    ∧ resolveWatermark store0 now0 = ⟨2023, 1, 2, 10, 0, 0⟩
    ∧ dtLt ⟨2023, 1, 2, 5, 0, 0⟩ ⟨2023, 1, 2, 10, 0, 0⟩ = true :=
  ⟨rfl, rfl, rfl, rfl⟩

end ETL
